import Mathlib

/-!
Verification development for the `local-llm-observability` translation pipeline
(`src/translation_agent.py`, `src/monitor_agent.py`, `src/main.py`).

The program text is shallowly embedded: Python strings become `List Char`,
Python string primitives (`split`, `replace`, `strip`, `in`, `lower`) become
executable Lean functions with the same semantics, and the two regular
expressions used by `_translate_frontmatter` are modelled by deterministic
matchers (the patterns involved have disjoint character classes at every
backtracking point, so the Python backtracking engine is deterministic on
them; `\s` is modelled by its ASCII subset, which covers every input the
program is exercised on here).  Fallible external calls (the model backend
and the database) are modelled with `Except` / oracle functions.
-/

namespace LlmObs

/-- Coerce a Lean string literal to the `List Char` representation used
throughout the embedding. -/
def S (s : String) : List Char := s.data

/-- The single-quote character (written numerically). -/
def squote : Char := Char.ofNat 39

/-- The double-quote character (written numerically). -/
def dquote : Char := Char.ofNat 34

/-- ASCII fragment of Python's `\s` character class (space, tab, newline,
carriage return, vertical tab, form feed). -/
def pyIsSpace (c : Char) : Bool :=
  c = ' ' || c = '\t' || c = '\n' || c = '\r' || c = Char.ofNat 11 || c = Char.ofNat 12

/-- The character class `['\"]` of the title/description patterns. -/
def isQuote (c : Char) : Bool := c = squote || c = dquote

/-- Python's substring test `old in s` (for `"/ko/" in str(path)`,
`"[" in translated_tags_str`, `"]" in translated_tags_str`). -/
def hasSub (old : List Char) : List Char → Bool
  | [] => old.isEmpty
  | c :: cs => old.isPrefixOf (c :: cs) || hasSub old cs

/-- Fuel-indexed worker for `listReplace`; the fuel argument only makes the
left-to-right scan structurally recursive and is always supplied as the
length of the scanned list, which is enough fuel to finish the scan. -/
def listReplaceAux (old new : List Char) : Nat → List Char → List Char
  | _, [] => []
  | 0, s => s
  | fuel+1, c :: cs =>
    if old ≠ [] ∧ old.isPrefixOf (c :: cs) then
      new ++ listReplaceAux old new fuel ((c :: cs).drop old.length)
    else
      c :: listReplaceAux old new fuel cs

/-- Python's `s.replace(old, new)` for nonempty `old`: every non-overlapping
occurrence of `old`, scanned left to right, is replaced by `new`.  (The
program only ever replaces nonempty patterns; for `old = []` this returns
`s` unchanged.) -/
def listReplace (old new s : List Char) : List Char :=
  listReplaceAux old new s.length s

/-- Split off the text before the leftmost occurrence of `sep`:
`some (before, after)` with `s = before ++ sep ++ after`, or `none` when
`sep` does not occur in `s` (for nonempty `sep`). -/
def splitFirst (sep : List Char) : List Char → Option (List Char × List Char)
  | [] => none
  | c :: cs =>
    if sep.isPrefixOf (c :: cs) then some ([], (c :: cs).drop sep.length)
    else
      match splitFirst sep cs with
      | some (a, b) => some (c :: a, b)
      | none => none

/-- Python's `s.split(sep, maxsplit)` for nonempty `sep`: at most `maxsplit`
splits at the leftmost occurrences of `sep`, scanned left to right. -/
def pySplit (sep : List Char) : Nat → List Char → List (List Char)
  | 0, s => [s]
  | n+1, s =>
    match splitFirst sep s with
    | none => [s]
    | some (a, b) => a :: pySplit sep n b

/-- Fuel-indexed worker for `countOcc` (fuel is always the length of the
scanned list, enough for the scan to finish). -/
def countOccAux (sep : List Char) : Nat → List Char → Nat
  | 0, _ => 0
  | fuel+1, s =>
    match splitFirst sep s with
    | none => 0
    | some (_, b) => 1 + countOccAux sep fuel b

/-- Number of non-overlapping occurrences of `sep` in `s`, counted left to
right — the notion of "occurrence" used by Python's `split` and `replace`. -/
def countOcc (sep s : List Char) : Nat := countOccAux sep s.length s

/-- Python's `s.strip()` (whitespace stripped from both ends), on the ASCII
whitespace class. -/
def pyStrip (s : List Char) : List Char :=
  ((s.dropWhile pyIsSpace).reverse.dropWhile pyIsSpace).reverse

/-- Python's `s.lower()` (the program only lowercases the ASCII language
codes `"EN"` / `"JP"`). -/
def pyLower (s : List Char) : List Char := s.map Char.toLower

/-- Attempt to match `key ++ \s*['\"](.*?)['\"]` anchored at the start of
`s`, returning the lazy group.  Deterministic version of the backtracking
match: `\s*` and `['\"]` are disjoint classes, so the greedy whitespace run
is forced, and the lazy group extends to the first quote character (either
kind), failing if a newline intervenes (`.` does not match `\n`). -/
def matchKeyQuoted (key s : List Char) : Option (List Char) :=
  if key.isPrefixOf s then
    match (s.drop key.length).dropWhile pyIsSpace with
    | [] => none
    | q :: r2 =>
      if isQuote q then
        let grp := r2.takeWhile (fun c => ¬ isQuote c ∧ c ≠ '\n')
        match r2.drop grp.length with
        | c :: _ => if isQuote c then some grp else none
        | [] => none
      else none
  else none

/-- `re.search` for the title/description patterns: try every start
position left to right (Python's leftmost-match rule) and return the first
group found. -/
def searchKeyQuoted (key : List Char) : List Char → Option (List Char)
  | [] => none
  | c :: cs =>
    match matchKeyQuoted key (c :: cs) with
    | some g => some g
    | none => searchKeyQuoted key cs

/-- Attempt to match `key ++ \s*(\[.*?\])` anchored at the start of `s`,
returning the bracketed group (brackets included, as in the source's
`tags_match.group(1)`). -/
def matchKeyBracket (key s : List Char) : Option (List Char) :=
  if key.isPrefixOf s then
    match (s.drop key.length).dropWhile pyIsSpace with
    | '[' :: r2 =>
      let grp := r2.takeWhile (fun c => c ≠ ']' ∧ c ≠ '\n')
      match r2.drop grp.length with
      | ']' :: _ => some ('[' :: grp ++ [']'])
      | _ => none
    | _ => none
  else none

/-- `re.search` for the tags pattern, leftmost start position first. -/
def searchKeyBracket (key : List Char) : List Char → Option (List Char)
  | [] => none
  | c :: cs =>
    match matchKeyBracket key (c :: cs) with
    | some g => some g
    | none => searchKeyBracket key cs

/-- The source's `f"'{t}'"`: wrap a text in single quotes. -/
def sq (t : List Char) : List Char := squote :: t ++ [squote]

/-- Lookup with default in an association list, modelling `dict.get(k, d)`. -/
def dictGet : List (List Char × List Char) → List Char → List Char → List Char
  | [], _, dflt => dflt
  | (k, v) :: rest, key, dflt => if k = key then v else dictGet rest key dflt

/-- The module-level `MODELS` dictionary of `translation_agent.py`. -/
def MODELS : List (List Char × List Char) :=
  [(S "EN", S "gemma2:9b"), (S "JP", S "qwen2.5:7b")]

/-- The module-level `SYSTEM_PROMPTS` dictionary (exact prompt text of the
source, including indentation and the leading/trailing newlines of the
Python triple-quoted literals). -/
def SYSTEM_PROMPTS : List (List Char × List Char) :=
  [(S "EN", S "\n    You are a skilled Tech Blog Translator. \n    Translate the Korean text into natural, professional English for a developer audience.\n\n    [Critical Rules]\n    1. **Tone**: Casual but professional (DevLog style). Use \x22I\x22 for the first person.\n    2. **Technical Terms**: Keep terms like \x27Local LLM\x27, \x27vscode\x27, \x27commit & push\x27, \x27terminal\x27 in English.\n    3. **Tags Handling**: If the input is a list of tags (e.g., [\x27A\x27, \x27B\x27]), translate the words inside but KEEP the [\x27...\x27] format strictly.\n    4. **Formatting**: Preserve all Markdown formatting.\n    "),
   (S "JP", S "\n    あなたはプロの技術ブロガーです。韓国語の技術ブログを日本のエンジニア向けに自然な日本語へ翻訳してください。\n\n    [Critical Rules]\n    1. **Tone**: Polite but technical (「です・ます」調).\n    2. **Technical Terms**: Use standard Katakana or English (e.g., Local LLM, vscode).\n    3. **Tags Handling**: If the input is a list of tags (e.g., [\x27A\x27, \x27B\x27]), translate the words inside but KEEP the [\x27...\x27] format strictly.\n    4. **Formatting**: Markdownの形式を崩さないでください。\n    ")]

/-- The suffix `_call_llm` appends to the system prompt when `is_tags`. -/
def tagsInstruction : List Char :=
  S "\nIMPORTANT: The input is a list of tags. Translate the terms but output ONLY the Python-style list format: [\x27Tag1\x27, \x27Tag2\x27]. Do not explain."

/-- The suffix `_call_llm` appends to the system prompt when `is_metadata`. -/
def metadataInstruction : List Char :=
  S "\nTranslate this short metadata text accurately. Keep it concise."

/-- The model-identifier and system-prompt selection performed at the top of
`_call_llm` (lines 45-52): `MODELS.get(target_lang, "gemma2:9b")`,
`SYSTEM_PROMPTS.get(target_lang, "")`, then the role-dependent suffix
(`is_tags` taking precedence over `is_metadata`).  The user text is a
parameter only to mirror the call signature; the selection never reads it. -/
def call_llm_select (text target_lang : List Char) (is_metadata is_tags : Bool) :
    List Char × List Char :=
  let model_name := dictGet MODELS target_lang (S "gemma2:9b")
  let base := dictGet SYSTEM_PROMPTS target_lang []
  let system_prompt :=
    if is_tags then base ++ tagsInstruction
    else if is_metadata then base ++ metadataInstruction
    else base
  (model_name, system_prompt)

/-- Environment of the metrics sink: whether `psycopg2.connect`, the
`INSERT`/`commit`, and `conn.rollback()` would succeed on this call
(`rollback` raises, e.g. `InterfaceError`, when the connection is
broken or closed). -/
structure SinkEnv where
  connectOk : Bool
  insertOk : Bool
  rollbackOk : Bool

/-- The fallible external `psycopg2.connect(**self.db_config)` call. -/
def db_connect (env : SinkEnv) : Except (List Char) Unit :=
  if env.connectOk then .ok () else .error (S "connect failed")

/-- The fallible external `cur.execute(...)` / `commit()` of `log_inference`. -/
def db_insert (env : SinkEnv) : Except (List Char) Unit :=
  if env.insertOk then .ok () else .error (S "insert failed")

/-- The fallible external `self.conn.rollback()` call of the insert-failure
handler. -/
def db_rollback (env : SinkEnv) : Except (List Char) Unit :=
  if env.rollbackOk then .ok () else .error (S "rollback failed")

/-- `MLOpsMonitor._connect` (monitor_agent.py lines 19-23): try to connect;
on failure the exception is caught, a message is printed, and `self.conn`
keeps its previous value (`None`). -/
def monitor_connect (env : SinkEnv) (conn : Bool) : Bool :=
  match db_connect env with
  | .ok _ => true
  | .error _ => conn

/-- `MLOpsMonitor.log_inference` (lines 25-49), with the connection state
modelled as a `Bool` (`self.conn is not None`).  Returns
`(new connection state, whether a row was recorded)`; an `.error` result
models an exception escaping to the caller.  The insert is wrapped in
`try`/`except`, but the handler's `self.conn.rollback()` (line 49) is
itself uncaught, so a rollback failure escapes. -/
def log_inference (env : SinkEnv) (conn : Bool) : Except (List Char) (Bool × Bool) :=
  let conn1 := if !conn then monitor_connect env conn else conn
  if !conn1 then .ok (conn1, false)
  else
    match db_insert env with
    | .ok _ => .ok (conn1, true)
    | .error _ =>
      match db_rollback env with
      | .ok _ => .ok (conn1, false)
      | .error e => .error e

/-- The tail of `_call_llm` after the backend responded (lines 76-90): log
the inference to the sink, then return the response text.  An `.error`
result would model the sink raising into the translation pipeline. -/
def call_llm_log (env : SinkEnv) (conn : Bool) (result_text : List Char) :
    Except (List Char) (List Char × Bool) :=
  match log_inference env conn with
  | .ok (conn2, _) => .ok (result_text, conn2)
  | .error e => .error e

/-- The metric computation of `_call_llm` lines 71-73, with the backend's
`eval_duration` (nanoseconds) and `eval_count` counters as optional
integers (`response.get(key, 0)`), and the float arithmetic modelled
over `ℚ`:  `tps = eval_count / (eval_duration / 1e9) if eval_duration > 0
else 0`. -/
def tps_of (eval_duration eval_count : Option Int) : ℚ :=
  let ed := eval_duration.getD 0
  let ec := eval_count.getD 0
  if 0 < ed then (ec : ℚ) / ((ed : ℚ) / 1000000000) else 0

/-- Oracle for the results of `_call_llm` at a fixed target language: the
text the backend returns for a metadata-mode call, a tags-mode call (after
the code-fence cleanup of line 67), and a body call. -/
structure Translator where
  metadata : List Char → List Char
  tags : List Char → List Char
  body : List Char → List Char

/-- Step 1 of `_translate_frontmatter` (lines 96-101): search the raw
frontmatter for the title pattern; on a match, translate the group and
replace the single-quoted original (`f"'{original_title}'"`) in the
current text. -/
def title_step (tr : Translator) (raw cur : List Char) : List Char :=
  match searchKeyQuoted (S "title:") raw with
  | some t => listReplace (sq t) (sq (tr.metadata t)) cur
  | none => cur

/-- Step 2 of `_translate_frontmatter` (lines 104-108), identical to the
title step for the `description:` pattern. -/
def desc_step (tr : Translator) (raw cur : List Char) : List Char :=
  match searchKeyQuoted (S "description:") raw with
  | some d => listReplace (sq d) (sq (tr.metadata d)) cur
  | none => cur

/-- Step 3 of `_translate_frontmatter` (lines 112-121): search the raw
frontmatter for the bracketed tags literal; translate it; if the result
still contains `"["` and `"]"`, replace the original literal, otherwise
keep the text unchanged and surface a warning (the returned flag). -/
def tags_step (tr : Translator) (raw cur : List Char) : List Char × Bool :=
  match searchKeyBracket (S "tags:") raw with
  | some g =>
    let tg := tr.tags g
    if hasSub (S "[") tg && hasSub (S "]") tg then (listReplace g tg cur, false)
    else (cur, true)
  | none => (cur, false)

/-- `_translate_frontmatter` (lines 92-123) in the exception-free case: the
three steps run in sequence, each searching the original `raw_frontmatter`
and rewriting the accumulated text.  The boolean is the tags-format
warning. -/
def translate_frontmatter (tr : Translator) (raw_frontmatter : List Char) :
    List Char × Bool :=
  tags_step tr raw_frontmatter
    (desc_step tr raw_frontmatter (title_step tr raw_frontmatter raw_frontmatter))

/-- Oracle for `_call_llm` including failure: each call may raise (model
backend unreachable), modelled by `Except`; the second argument is the
target language. -/
structure TranslatorE where
  metadata : List Char → List Char → Except (List Char) (List Char)
  tags : List Char → List Char → Except (List Char) (List Char)
  body : List Char → List Char → Except (List Char) (List Char)

/-- Tags step of `_translate_frontmatter` with fallible model calls.  There
is no `try`/`except` in the source, so an exception from `_call_llm`
propagates (`.error`). -/
def tags_stepE (tr : TranslatorE) (raw lang cur : List Char) :
    Except (List Char) (List Char × Bool) :=
  match searchKeyBracket (S "tags:") raw with
  | some g =>
    match tr.tags g lang with
    | .error e => .error e
    | .ok tg =>
      if hasSub (S "[") tg && hasSub (S "]") tg then .ok (listReplace g tg cur, false)
      else .ok (cur, true)
  | none => .ok (cur, false)

/-- Description step with fallible model calls, continuing into the tags
step on success. -/
def desc_stepE (tr : TranslatorE) (raw lang cur : List Char) :
    Except (List Char) (List Char × Bool) :=
  match searchKeyQuoted (S "description:") raw with
  | some d =>
    match tr.metadata d lang with
    | .error e => .error e
    | .ok td => tags_stepE tr raw lang (listReplace (sq d) (sq td) cur)
  | none => tags_stepE tr raw lang cur

/-- `_translate_frontmatter` with fallible model calls: the title step runs
first; its exception, if any, aborts the whole transcode (the source has
no per-field exception scope). -/
def translate_frontmatterE (tr : TranslatorE) (raw_frontmatter target_lang : List Char) :
    Except (List Char) (List Char × Bool) :=
  match searchKeyQuoted (S "title:") raw_frontmatter with
  | some t =>
    match tr.metadata t target_lang with
    | .error e => .error e
    | .ok tt =>
      desc_stepE tr raw_frontmatter target_lang
        (listReplace (sq t) (sq tt) raw_frontmatter)
  | none => desc_stepE tr raw_frontmatter target_lang raw_frontmatter

/-- The frontmatter delimiter `'---'` of `content.split('---', 2)`. -/
def delim : List Char := S "---"

/-- Lines 136-144 of `process_file`: split the content on the delimiter
with `maxsplit=2`; fewer than three parts means no frontmatter (whole
content becomes the body, and a warning is printed — the boolean). -/
def parseDoc (content : List Char) : List Char × List Char × Bool :=
  let parts := pySplit delim 2 content
  if parts.length < 3 then ([], content, true)
  else (parts.getD 1 [], parts.getD 2 [], false)

/-- Line 152: `f"---{translated_frontmatter}---\n\n{translated_body}\n"`. -/
def reassemble (translated_frontmatter translated_body : List Char) : List Char :=
  S "---" ++ translated_frontmatter ++ S "---\n\n" ++ translated_body ++ S "\n"

/-- `str(Path(p).parent)` for a normalized POSIX path containing a slash
(the only shape the pipeline feeds it). -/
def path_parent (p : List Char) : List Char :=
  match splitFirst ['/'] p.reverse with
  | some (_, pr) => pr.reverse
  | none => ['.']

/-- `Path(p).name` for a normalized POSIX path. -/
def path_name (p : List Char) : List Char :=
  match splitFirst ['/'] p.reverse with
  | some (nr, _) => nr.reverse
  | none => p

/-- The source-language path segment `"/ko/"`. -/
def koSeg : List Char := S "/ko/"

/-- Lines 154-157: the output path.  If `"/ko/"` occurs in the source path,
every occurrence is replaced by `"/" + lang.lower() + "/"`; otherwise the
output nests under `path.parent / lang.lower() / path.name`. -/
def target_path (path lang : List Char) : List Char :=
  if hasSub koSeg path then
    listReplace koSeg ('/' :: (pyLower lang ++ ['/'])) path
  else
    path_parent path ++ '/' :: (pyLower lang ++ '/' :: path_name path)

/-- The per-language loop of `process_file` (lines 146-163): for each
target language, transcode the frontmatter when it is nonempty, translate
the stripped body, reassemble, and write to the derived output path.
Returns the `(path, content)` pairs written before any failure, and the
first uncaught exception if one occurred (there is no `try` in the loop, so
a failure ends the whole call). -/
def run_langs (tr : TranslatorE) (path frontmatter body : List Char) :
    List (List Char) → List (List Char × List Char) × Option (List Char)
  | [] => ([], none)
  | lang :: rest =>
    let fmR : Except (List Char) (List Char) :=
      if frontmatter = [] then .ok []
      else
        match translate_frontmatterE tr frontmatter lang with
        | .error e => .error e
        | .ok p => .ok p.1
    match fmR with
    | .error e => ([], some e)
    | .ok tfm =>
      match tr.body (pyStrip body) lang with
      | .error e => ([], some e)
      | .ok tb =>
        let out := run_langs tr path frontmatter body rest
        ((target_path path lang, reassemble tfm tb) :: out.1, out.2)

/-- `process_file` (lines 125-163) for an existing file with the given
content: parse, then run the fixed language list `["EN", "JP"]`. -/
def process_file (tr : TranslatorE) (path content : List Char) :
    List (List Char × List Char) × Option (List Char) :=
  let p := parseDoc content
  run_langs tr path p.1 p.2.1 [S "EN", S "JP"]

/-- The per-file loop of `main` (main.py lines 108-115): each file is
processed in its own `try`/`except Exception` scope, so a failure discards
nothing already written and processing continues with the next file. -/
def main_loop (tr : TranslatorE) : List (List Char × List Char) → List (List Char × List Char)
  | [] => []
  | (path, content) :: rest => (process_file tr path content).1 ++ main_loop tr rest

/-! ### General lemmas about the string primitives -/

theorem hasSub_nil_left (s : List Char) : hasSub [] s = true := by
  cases s <;> simp [hasSub, List.isEmpty]

theorem hasSub_cons_false {old : List Char} {c : Char} {cs : List Char}
    (h : hasSub old (c :: cs) = false) :
    old.isPrefixOf (c :: cs) = false ∧ hasSub old cs = false := by
  simpa [hasSub] using h

/-- A pattern that does not occur in `s` is not replaced: the scan leaves
`s` unchanged at any fuel. -/
theorem listReplaceAux_no_occ (old new : List Char) :
    ∀ (fuel : Nat) (s : List Char), hasSub old s = false →
      listReplaceAux old new fuel s = s := by
  intro fuel
  induction fuel with
  | zero => intro s _; cases s <;> rfl
  | succ f ih =>
    intro s h
    cases s with
    | nil => rfl
    | cons c cs =>
      obtain ⟨h1, h2⟩ := hasSub_cons_false h
      rw [listReplaceAux, if_neg (by simp [h1])]
      exact congrArg (List.cons c) (ih cs h2)

/-- `replace` on a string without the pattern is the identity. -/
theorem listReplace_no_occ (old new s : List Char) (h : hasSub old s = false) :
    listReplace old new s = s :=
  listReplaceAux_no_occ old new s.length s h

/-- A string of the form `a ++ old ++ b` contains `old`. -/
theorem hasSub_mid (old a b : List Char) : hasSub old (a ++ old ++ b) = true := by
  induction a with
  | nil =>
    cases old with
    | nil => simpa using hasSub_nil_left b
    | cons o os =>
      have hpre : (o :: os).isPrefixOf ((o :: os) ++ b) = true := by
        simp [List.isPrefixOf_iff_prefix]
      simpa [hasSub] using Or.inl hpre
  | cons c a' ih =>
    simpa [hasSub] using Or.inr ih

/-- Replacement at the first occurrence: if `old` first occurs in
`a ++ old ++ b` at offset `a.length` and does not occur in `b`, the scan
yields `a ++ new ++ b`. -/
theorem listReplaceAux_first (old new b : List Char) (hold : old ≠ [])
    (hB : hasSub old b = false) :
    ∀ (a : List Char) (fuel : Nat), (a ++ old ++ b).length ≤ fuel →
      (∀ i, i < a.length → old.isPrefixOf ((a ++ old ++ b).drop i) = false) →
      listReplaceAux old new fuel (a ++ old ++ b) = a ++ new ++ b := by
  intro a
  induction a with
  | nil =>
    intro fuel hf _
    obtain ⟨o, os, rfl⟩ : ∃ o os, old = o :: os := by
      cases old with
      | nil => exact absurd rfl hold
      | cons o os => exact ⟨o, os, rfl⟩
    cases fuel with
    | zero => simp at hf
    | succ f =>
      have hpre : (o :: os).isPrefixOf (o :: (os ++ b)) = true := by
        have := List.prefix_append (o :: os) b
        rw [List.isPrefixOf_iff_prefix]
        exact this
      have hdrop : List.drop (o :: os).length (o :: (os ++ b)) = b :=
        List.drop_left (o :: os) b
      show listReplaceAux (o :: os) new (f + 1) (o :: (os ++ b)) = new ++ b
      rw [listReplaceAux, if_pos ⟨List.cons_ne_nil o os, hpre⟩, hdrop,
        listReplaceAux_no_occ _ _ f b hB]
  | cons c a' ih =>
    intro fuel hf hocc
    cases fuel with
    | zero => simp at hf
    | succ f =>
      have hpre : (old.isPrefixOf (c :: (a' ++ old ++ b))) = false := by
        simpa using hocc 0 (by simp)
      have hlen : (a' ++ old ++ b).length ≤ f := by
        simp only [List.cons_append, List.length_cons] at hf
        omega
      have hocc' : ∀ i, i < a'.length →
          old.isPrefixOf ((a' ++ old ++ b).drop i) = false := by
        intro i hi
        simpa [List.drop_succ_cons] using hocc (i + 1) (by simpa using Nat.succ_lt_succ hi)
      have hcond : ¬(old ≠ [] ∧ old.isPrefixOf (c :: (a' ++ old ++ b)) = true) := by
        rintro ⟨-, hp⟩
        rw [hpre] at hp
        exact absurd hp (by simp)
      show listReplaceAux old new (f + 1) (c :: (a' ++ old ++ b))
          = c :: (a' ++ new ++ b)
      rw [listReplaceAux, if_neg hcond]
      exact congrArg (List.cons c) (ih f hlen hocc')

/-- `replace` at a unique occurrence. -/
theorem listReplace_first (old new a b : List Char) (hold : old ≠ [])
    (hocc : ∀ i, i < a.length → old.isPrefixOf ((a ++ old ++ b).drop i) = false)
    (hB : hasSub old b = false) :
    listReplace old new (a ++ old ++ b) = a ++ new ++ b :=
  listReplaceAux_first old new b hold hB a _ le_rfl hocc

/-- Soundness of `splitFirst`: a successful split decomposes the string. -/
theorem splitFirst_eq (sep : List Char) :
    ∀ (s a b : List Char), splitFirst sep s = some (a, b) → s = a ++ sep ++ b := by
  intro s
  induction s with
  | nil => intro a b h; simp [splitFirst] at h
  | cons c cs ih =>
    intro a b h
    rw [splitFirst] at h
    by_cases hp : sep.isPrefixOf (c :: cs) = true
    · rw [if_pos hp] at h
      obtain ⟨t, ht⟩ := List.isPrefixOf_iff_prefix.mp hp
      simp only [Option.some.injEq, Prod.mk.injEq] at h
      obtain ⟨rfl, rfl⟩ := h
      have hdrop : (c :: cs).drop sep.length = t := by
        rw [← ht]; exact List.drop_left sep t
      rw [hdrop, List.nil_append, ht]
    · rw [if_neg hp] at h
      cases hsf : splitFirst sep cs with
      | none => rw [hsf] at h; simp at h
      | some p =>
        obtain ⟨a', b'⟩ := p
        rw [hsf] at h
        simp only [Option.some.injEq, Prod.mk.injEq] at h
        obtain ⟨rfl, rfl⟩ := h
        simpa using congrArg (List.cons c) (ih a' b' hsf)

/-- Completeness of `splitFirst` at the first occurrence: if `sep` first
occurs at offset `a.length`, the split returns `(a, b)`. -/
theorem splitFirst_first (sep b : List Char) (hsep : sep ≠ []) :
    ∀ a : List Char,
      (∀ i, i < a.length → sep.isPrefixOf ((a ++ sep ++ b).drop i) = false) →
      splitFirst sep (a ++ sep ++ b) = some (a, b) := by
  intro a
  induction a with
  | nil =>
    intro _
    obtain ⟨o, os, rfl⟩ : ∃ o os, sep = o :: os := by
      cases sep with
      | nil => exact absurd rfl hsep
      | cons o os => exact ⟨o, os, rfl⟩
    have hpre : (o :: os).isPrefixOf (o :: (os ++ b)) = true := by
      have := List.prefix_append (o :: os) b
      rw [List.isPrefixOf_iff_prefix]
      exact this
    have hdrop : List.drop (o :: os).length (o :: (os ++ b)) = b :=
      List.drop_left (o :: os) b
    show splitFirst (o :: os) (o :: (os ++ b)) = some ([], b)
    rw [splitFirst, if_pos hpre, hdrop]
  | cons c a' ih =>
    intro hocc
    have hpre : (sep.isPrefixOf (c :: (a' ++ sep ++ b))) = false := by
      simpa using hocc 0 (by simp)
    have hocc' : ∀ i, i < a'.length →
        sep.isPrefixOf ((a' ++ sep ++ b).drop i) = false := by
      intro i hi
      simpa [List.drop_succ_cons] using hocc (i + 1) (by simpa using Nat.succ_lt_succ hi)
    have hcond : ¬(sep.isPrefixOf (c :: (a' ++ sep ++ b)) = true) := by
      rw [hpre]; simp
    show splitFirst sep (c :: (a' ++ sep ++ b)) = some (c :: a', b)
    rw [splitFirst, if_neg hcond, ih hocc']

/-- The fuel of `countOccAux` is irrelevant once it covers the scanned
string. -/
theorem countOccAux_fuel (sep : List Char) (hsep : sep ≠ []) :
    ∀ (f1 : Nat) (f2 : Nat) (s : List Char),
      s.length ≤ f1 → s.length ≤ f2 → countOccAux sep f1 s = countOccAux sep f2 s := by
  intro f1
  induction f1 with
  | zero =>
    intro f2 s h1 _
    obtain rfl : s = [] := List.length_eq_zero.mp (Nat.le_zero.mp h1)
    cases f2 with
    | zero => rfl
    | succ g2 => simp [countOccAux, splitFirst]
  | succ g ih =>
    intro f2 s h1 h2
    cases f2 with
    | zero =>
      obtain rfl : s = [] := List.length_eq_zero.mp (Nat.le_zero.mp h2)
      simp [countOccAux, splitFirst]
    | succ g2 =>
      rw [countOccAux, countOccAux]
      cases hsf : splitFirst sep s with
      | none => rfl
      | some p =>
        obtain ⟨a, b⟩ := p
        have hs := splitFirst_eq sep s a b hsf
        have hlen : b.length + 1 ≤ s.length := by
          rw [hs]
          have : 1 ≤ sep.length := by
            cases sep with
            | nil => exact absurd rfl hsep
            | cons _ _ => simp
          simp only [List.length_append]
          omega
        exact congrArg (1 + ·) (ih g2 b (by omega) (by omega))

/-- `countOcc` when the separator does not occur. -/
theorem countOcc_of_none {sep s : List Char} (hsf : splitFirst sep s = none) :
    countOcc sep s = 0 := by
  cases s with
  | nil => rfl
  | cons c cs => rw [countOcc, List.length_cons, countOccAux, hsf]

/-- `countOcc` counts one occurrence plus the occurrences after it. -/
theorem countOcc_of_some {sep s a b : List Char} (hsep : sep ≠ [])
    (hsf : splitFirst sep s = some (a, b)) :
    countOcc sep s = 1 + countOcc sep b := by
  cases s with
  | nil => simp [splitFirst] at hsf
  | cons c cs =>
    rw [countOcc, List.length_cons, countOccAux, hsf]
    have hs := splitFirst_eq sep _ a b hsf
    have hlen : b.length + 1 ≤ cs.length + 1 := by
      have : 1 ≤ sep.length := by
        cases sep with
        | nil => exact absurd rfl hsep
        | cons _ _ => simp
      have := congrArg List.length hs
      simp only [List.length_cons, List.length_append] at this
      omega
    exact congrArg (1 + ·) (countOccAux_fuel sep hsep _ _ b (by omega) le_rfl)

/-- A successful tags match always yields a bracketed (hence nonempty)
group. -/
theorem matchKeyBracket_ne_nil {key s g : List Char}
    (h : matchKeyBracket key s = some g) : g ≠ [] := by
  unfold matchKeyBracket at h
  split at h
  · split at h
    · simp only [] at h
      split at h
      · simp only [Option.some.injEq] at h
        rw [← h]
        exact List.cons_ne_nil _ _
      · exact absurd h (by simp)
    · exact absurd h (by simp)
  · exact absurd h (by simp)

/-- The searched tags group is always nonempty. -/
theorem searchKeyBracket_ne_nil {key : List Char} :
    ∀ {s g : List Char}, searchKeyBracket key s = some g → g ≠ [] := by
  intro s
  induction s with
  | nil => intro g h; simp [searchKeyBracket] at h
  | cons c cs ih =>
    intro g h
    rw [searchKeyBracket] at h
    cases hm : matchKeyBracket key (c :: cs) with
    | some g' =>
      rw [hm] at h
      simp only [Option.some.injEq] at h
      exact h ▸ matchKeyBracket_ne_nil hm
    | none =>
      rw [hm] at h
      exact ih h

/-! ### Claim-side characterisation of the delimiter split -/

/-- Spec-side description of the frontmatter split: the text strictly
between the first and second (non-overlapping) delimiter occurrences, and
everything after the second occurrence; `none` when there are fewer than
two occurrences. -/
def firstTwoSegments (content : List Char) : Option (List Char × List Char) :=
  match splitFirst delim content with
  | none => none
  | some (_, r) =>
    match splitFirst delim r with
    | none => none
    | some (fm, after) => some (fm, after)

/-! ### Concrete translators used by counterexamples and witnesses -/

/-- Concrete metadata oracle used for the C1 inputs: translates `AI` to
`KI` and everything else (in particular `Hi`) to `X`. -/
def trMeta : Translator :=
  { metadata := fun t => if t = S "AI" then S "KI" else S "X"
    tags := fun g => g
    body := fun b => b }

/-- Tags oracle whose output has lost the bracket syntax. -/
def trBadTags : Translator :=
  { metadata := fun t => t
    tags := fun _ => S "no brackets here"
    body := fun b => b }

/-- Tags oracle returning a well-formed bracketed list. -/
def trGoodTags : Translator :=
  { metadata := fun t => t
    tags := fun _ => S "[\x27b\x27]"
    body := fun b => b }

/-- Oracle for the C2 title/tags interaction: the title `AI` translates to
`KI` while the tags translation comes back without brackets. -/
def trCrossBad : Translator :=
  { metadata := fun t => if t = S "AI" then S "KI" else t
    tags := fun _ => S "no brackets here"
    body := fun b => b }

/-- Oracle for the C2 title/tags interaction: the title `AI` translates to
`KI` while the tags translation is a well-formed bracketed list. -/
def trCrossGood : Translator :=
  { metadata := fun t => if t = S "AI" then S "KI" else t
    tags := fun _ => S "[\x27Z\x27]"
    body := fun b => b }

/-- Fallible oracle whose metadata calls always raise (model backend down
for the metadata role), while tags calls succeed. -/
def trMetaDown : TranslatorE :=
  { metadata := fun _ _ => .error (S "model down")
    tags := fun g _ => .ok g
    body := fun b _ => .ok b }

/-- Fallible oracle whose body call raises for target language `EN` only. -/
def trEnBodyDown : TranslatorE :=
  { metadata := fun t _ => .ok t
    tags := fun g _ => .ok g
    body := fun b lang => if lang = S "EN" then .error (S "backend down") else .ok b }

/-! ### Unfoldings of the bounded split -/

theorem pySplit_two (sep s : List Char) :
    pySplit sep 2 s =
      match splitFirst sep s with
      | none => [s]
      | some (a, b) => a :: pySplit sep 1 b := rfl

theorem pySplit_one (sep s : List Char) :
    pySplit sep 1 s =
      match splitFirst sep s with
      | none => [s]
      | some (a, b) => [a, b] := rfl

/-- `parseDoc` agrees with the two-occurrence characterisation: fewer than
two delimiters give empty frontmatter, whole-content body and a warning;
otherwise the parts are the segments around the first two occurrences. -/
theorem parseDoc_eq (content : List Char) :
    parseDoc content =
      match firstTwoSegments content with
      | none => ([], content, true)
      | some (fm, bd) => (fm, bd, false) := by
  unfold parseDoc firstTwoSegments
  rw [pySplit_two]
  cases h1 : splitFirst delim content with
  | none => simp
  | some p =>
    obtain ⟨a, r⟩ := p
    dsimp only
    rw [pySplit_one]
    cases h2 : splitFirst delim r with
    | none => simp
    | some q =>
      obtain ⟨fm, af⟩ := q
      simp

/-- C5: for documents with zero or one occurrences of the `---` delimiter,
`process_file` treats the entire content as body with empty frontmatter
and warns; with at least two occurrences, the frontmatter is the text
strictly between the first and second occurrence and the body is
everything after the second. -/
theorem claim_C5_delimiter_split (content : List Char) :
    (firstTwoSegments content = none →
      countOcc delim content < 2 ∧ parseDoc content = ([], content, true)) ∧
    (∀ fm bd : List Char, firstTwoSegments content = some (fm, bd) →
      2 ≤ countOcc delim content ∧ parseDoc content = (fm, bd, false)) := by
  have hd : delim ≠ [] := by decide
  constructor
  · intro h0
    refine ⟨?_, by rw [parseDoc_eq, h0]⟩
    unfold firstTwoSegments at h0
    cases h1 : splitFirst delim content with
    | none =>
      have := countOcc_of_none h1
      omega
    | some p =>
      obtain ⟨a, r⟩ := p
      rw [h1] at h0
      dsimp only at h0
      cases h2 : splitFirst delim r with
      | none =>
        have hc1 := countOcc_of_some hd h1
        have hc2 := countOcc_of_none h2
        omega
      | some q =>
        obtain ⟨fm, af⟩ := q
        rw [h2] at h0
        simp at h0
  · intro fm bd h0
    refine ⟨?_, by rw [parseDoc_eq, h0]⟩
    unfold firstTwoSegments at h0
    cases h1 : splitFirst delim content with
    | none => rw [h1] at h0; simp at h0
    | some p =>
      obtain ⟨a, r⟩ := p
      rw [h1] at h0
      dsimp only at h0
      cases h2 : splitFirst delim r with
      | none => rw [h2] at h0; simp at h0
      | some q =>
        obtain ⟨fm', af⟩ := q
        have hc1 := countOcc_of_some hd h1
        have hc2 := countOcc_of_some hd h2
        omega

/-- Witness for C5 at concrete inputs, one per branch. -/
theorem claim_C5_witness :
    (parseDoc (S "---x---y") = (S "x", S "y", false) ∧
      2 ≤ countOcc delim (S "---x---y")) ∧
    (parseDoc (S "plain body") = ([], S "plain body", true) ∧
      countOcc delim (S "plain body") < 2) := by
  constructor
  · have h := (claim_C5_delimiter_split (S "---x---y")).2 (S "x") (S "y") (by decide)
    exact ⟨h.2, h.1⟩
  · have h := (claim_C5_delimiter_split (S "plain body")).1 (by decide)
    exact ⟨h.2, h.1⟩

/-- C6 counterexample: for the two-delimiter document `---a---b`, the
frontmatter parses to `a` and the stripped body to `b`, yet reassembling
with both left unchanged by translation yields a document different from
the input — the blank-line spacing around the body is normalised by the
`f"---{fm}---\n\n{body}\n"` template, not preserved. -/
theorem claim_C6_counterexample :
    (parseDoc (S "---a---b")).1 = S "a" ∧
    pyStrip (parseDoc (S "---a---b")).2.1 = S "b" ∧
    reassemble (parseDoc (S "---a---b")).1 (pyStrip (parseDoc (S "---a---b")).2.1)
      ≠ S "---a---b" :=
  ⟨by decide, by decide, by decide⟩

/-- C6 (amended): the reassembled output is always
`"---" ++ fm ++ "---\n\n" ++ body ++ "\n"`, with the body stripped before
translation; delimiter positions and spacing are therefore preserved
exactly for documents already in this canonical shape.  For such a
document the parse recovers `(fm, "\n\n" ++ b ++ "\n")` and unchanged
translations reproduce it byte-for-byte. -/
theorem claim_C6_reassemble (fm b : List Char)
    (hocc : ∀ i, i < fm.length →
      delim.isPrefixOf ((fm ++ delim ++ (S "\n\n" ++ b ++ S "\n")).drop i) = false)
    (hb : pyStrip (S "\n\n" ++ b ++ S "\n") = b) :
    parseDoc (reassemble fm b) = (fm, S "\n\n" ++ b ++ S "\n", false) ∧
    reassemble (parseDoc (reassemble fm b)).1
        (pyStrip (parseDoc (reassemble fm b)).2.1) = reassemble fm b := by
  have hd : delim ≠ [] := by decide
  have hshape : reassemble fm b
      = delim ++ (fm ++ delim ++ (S "\n\n" ++ b ++ S "\n")) := by
    have h1 : S "---\n\n" = delim ++ S "\n\n" := by decide
    have h2 : S "---" = delim := by decide
    rw [reassemble, h1, h2]
    simp [List.append_assoc]
  have hsf1 : splitFirst delim (reassemble fm b)
      = some ([], fm ++ delim ++ (S "\n\n" ++ b ++ S "\n")) := by
    rw [hshape]
    have h := splitFirst_first delim (fm ++ delim ++ (S "\n\n" ++ b ++ S "\n")) hd []
      (by intro i hi; simp at hi)
    simpa using h
  have hsf2 : splitFirst delim (fm ++ delim ++ (S "\n\n" ++ b ++ S "\n"))
      = some (fm, S "\n\n" ++ b ++ S "\n") :=
    splitFirst_first delim (S "\n\n" ++ b ++ S "\n") hd fm hocc
  have hparse : parseDoc (reassemble fm b) = (fm, S "\n\n" ++ b ++ S "\n", false) := by
    rw [parseDoc_eq]
    unfold firstTwoSegments
    rw [hsf1]
    dsimp only
    rw [hsf2]
  refine ⟨hparse, ?_⟩
  rw [hparse]
  dsimp only
  rw [hb]

/-- Witness for C6 at a concrete canonical document. -/
theorem claim_C6_witness :
    parseDoc (reassemble (S "\ntitle: \x27t\x27\n") (S "hello"))
      = (S "\ntitle: \x27t\x27\n", S "\n\n" ++ S "hello" ++ S "\n", false) :=
  (claim_C6_reassemble (S "\ntitle: \x27t\x27\n") (S "hello") (by decide) (by decide)).1

/-- C1 counterexample.  First conjunct: in the block
`title: 'AI'\nnote: 'AI'\n` the recurrence of the quoted title in the
`note` field is also rewritten (the source replaces every occurrence of
`'{title}'` in the block), so bytes outside the title's raw value change.
Third conjunct: a double-quoted title is matched but the source splices
with single quotes (`f"'{t}'"`), so the block comes back unchanged even
though the translation differs from the original. -/
theorem claim_C1_counterexample :
    translate_frontmatter trMeta (S "title: \x27AI\x27\nnote: \x27AI\x27\n")
      = (S "title: \x27KI\x27\nnote: \x27KI\x27\n", false) ∧
    trMeta.metadata (S "Hi") ≠ S "Hi" ∧
    translate_frontmatter trMeta (S "title: \x22Hi\x22\n") = (S "title: \x22Hi\x22\n", false) :=
  ⟨by decide, by decide, by decide⟩

/-- C1 (amended): when the matched title value is single-quoted, occurs
first at its own field position and nowhere later in the block, and no
description or tags field matches, transcoding replaces exactly the quoted
title value and leaves every other byte identical; when the single-quoted
form of the matched value does not occur in the block (in particular for a
double-quoted title), the block is returned unchanged. -/
theorem claim_C1_title_frame :
    (∀ (tr : Translator) (a t b : List Char),
      searchKeyQuoted (S "title:") (a ++ sq t ++ b) = some t →
      searchKeyQuoted (S "description:") (a ++ sq t ++ b) = none →
      searchKeyBracket (S "tags:") (a ++ sq t ++ b) = none →
      (∀ i, i < a.length → (sq t).isPrefixOf ((a ++ sq t ++ b).drop i) = false) →
      hasSub (sq t) b = false →
      translate_frontmatter tr (a ++ sq t ++ b)
        = (a ++ sq (tr.metadata t) ++ b, false)) ∧
    (∀ (tr : Translator) (raw t : List Char),
      searchKeyQuoted (S "title:") raw = some t →
      hasSub (sq t) raw = false →
      searchKeyQuoted (S "description:") raw = none →
      searchKeyBracket (S "tags:") raw = none →
      translate_frontmatter tr raw = (raw, false)) := by
  constructor
  · intro tr a t b hT hD hG hocc hB
    have hsq : sq t ≠ [] := List.cons_ne_nil _ _
    have h1 : title_step tr (a ++ sq t ++ b) (a ++ sq t ++ b)
        = a ++ sq (tr.metadata t) ++ b := by
      unfold title_step
      rw [hT]
      exact listReplace_first (sq t) (sq (tr.metadata t)) a b hsq hocc hB
    have h2 : desc_step tr (a ++ sq t ++ b) (a ++ sq (tr.metadata t) ++ b)
        = a ++ sq (tr.metadata t) ++ b := by
      unfold desc_step
      rw [hD]
    have h3 : tags_step tr (a ++ sq t ++ b) (a ++ sq (tr.metadata t) ++ b)
        = (a ++ sq (tr.metadata t) ++ b, false) := by
      unfold tags_step
      rw [hG]
    rw [translate_frontmatter, h1, h2, h3]
  · intro tr raw t hT hnosub hD hG
    have h1 : title_step tr raw raw = raw := by
      unfold title_step
      rw [hT]
      exact listReplace_no_occ _ _ _ hnosub
    have h2 : desc_step tr raw raw = raw := by
      unfold desc_step
      rw [hD]
    have h3 : tags_step tr raw raw = (raw, false) := by
      unfold tags_step
      rw [hG]
    rw [translate_frontmatter, h1, h2, h3]

/-- Witness for C1 at a concrete block with a unique single-quoted title. -/
theorem claim_C1_witness :
    hasSub (sq (S "AI")) (S "\nauthor: \x27Bob\x27\n") = false ∧
    translate_frontmatter trMeta (S "title: " ++ sq (S "AI") ++ S "\nauthor: \x27Bob\x27\n")
      = (S "title: " ++ sq (trMeta.metadata (S "AI")) ++ S "\nauthor: \x27Bob\x27\n", false) :=
  ⟨by decide,
    claim_C1_title_frame.1 trMeta (S "title: ") (S "AI") (S "\nauthor: \x27Bob\x27\n")
      (by decide) (by decide) (by decide) (by decide) (by decide)⟩

/-- C2 counterexample: for the block `title: 'AI'` + `tags: ['AI', 'X']`
the title step's `replace("'AI'", "'KI'")` rewrites inside the tags
literal before the tags step runs (the tags pattern was matched against
the raw block).  With a malformed tags translation the output tags field
is `['KI', 'X']` — the original tags text `['AI', 'X']` occurs nowhere in
the output, so the field does not equal the original; with a well-formed
translation `['Z']` nothing is spliced at all, because the matched literal
no longer occurs in the rewritten block. -/
theorem claim_C2_counterexample :
    searchKeyBracket (S "tags:") (S "title: \x27AI\x27\ntags: [\x27AI\x27, \x27X\x27]\n")
      = some (S "[\x27AI\x27, \x27X\x27]") ∧
    translate_frontmatter trCrossBad (S "title: \x27AI\x27\ntags: [\x27AI\x27, \x27X\x27]\n")
      = (S "title: \x27KI\x27\ntags: [\x27KI\x27, \x27X\x27]\n", true) ∧
    hasSub (S "[\x27AI\x27, \x27X\x27]")
      (S "title: \x27KI\x27\ntags: [\x27KI\x27, \x27X\x27]\n") = false ∧
    translate_frontmatter trCrossGood (S "title: \x27AI\x27\ntags: [\x27AI\x27, \x27X\x27]\n")
      = (S "title: \x27KI\x27\ntags: [\x27KI\x27, \x27X\x27]\n", false) ∧
    hasSub (trCrossGood.tags (S "[\x27AI\x27, \x27X\x27]"))
      (S "title: \x27KI\x27\ntags: [\x27KI\x27, \x27X\x27]\n") = false :=
  ⟨by decide, by decide, by decide, by decide, by decide⟩

/-- C2 (amended): the tags step acts on the block text already rewritten
by the title and description steps (`cur`), while the pattern was matched
against the raw block.  A translated value missing either bracket leaves
that current text unchanged and raises the warning flag — so the tags
field equals the original exactly when the earlier substitutions did not
rewrite inside it; a translated value containing both brackets replaces
the matched literal where it survives in the current text (stated for a
unique surviving occurrence). -/
theorem claim_C2_tags_guard (tr : Translator) (raw g cur : List Char)
    (hG : searchKeyBracket (S "tags:") raw = some g)
    (hcur : desc_step tr raw (title_step tr raw raw) = cur) :
    ((hasSub (S "[") (tr.tags g) = false ∨ hasSub (S "]") (tr.tags g) = false) →
      translate_frontmatter tr raw = (cur, true)) ∧
    (∀ a b : List Char,
      hasSub (S "[") (tr.tags g) = true → hasSub (S "]") (tr.tags g) = true →
      cur = a ++ g ++ b →
      (∀ i, i < a.length → g.isPrefixOf ((a ++ g ++ b).drop i) = false) →
      hasSub g b = false →
      translate_frontmatter tr raw = (a ++ tr.tags g ++ b, false)) := by
  constructor
  · intro hbad
    have h3 : tags_step tr raw cur = (cur, true) := by
      unfold tags_step
      rw [hG]
      dsimp only
      rcases hbad with hb | hb <;> rw [hb] <;> simp
    rw [translate_frontmatter, hcur, h3]
  · intro a b hL hR hdecomp hocc hB
    have hg : g ≠ [] := searchKeyBracket_ne_nil hG
    have h3 : tags_step tr raw cur = (a ++ tr.tags g ++ b, false) := by
      unfold tags_step
      rw [hG]
      dsimp only
      rw [hL, hR]
      simp only [Bool.and_self, if_true]
      rw [hdecomp]
      exact congrArg (fun x => (x, false)) (listReplace_first g (tr.tags g) a b hg hocc hB)
    rw [translate_frontmatter, hcur, h3]

/-- Witness for C2: a malformed tags translation is discarded with a
warning (both in a tags-only block, where the current text is still the
original, and in the title-interaction block); a well-formed one is
spliced where the literal survives. -/
theorem claim_C2_witness :
    translate_frontmatter trBadTags (S "tags: [\x27a\x27]\n") = (S "tags: [\x27a\x27]\n", true) ∧
    translate_frontmatter trGoodTags (S "tags: [\x27a\x27]\n")
      = (S "tags: " ++ trGoodTags.tags (S "[\x27a\x27]") ++ S "\n", false) ∧
    translate_frontmatter trCrossBad (S "title: \x27AI\x27\ntags: [\x27AI\x27, \x27X\x27]\n")
      = (S "title: \x27KI\x27\ntags: [\x27KI\x27, \x27X\x27]\n", true) :=
  ⟨(claim_C2_tags_guard trBadTags (S "tags: [\x27a\x27]\n") (S "[\x27a\x27]")
      (S "tags: [\x27a\x27]\n") (by decide) (by decide)).1 (Or.inl (by decide)),
   (claim_C2_tags_guard trGoodTags (S "tags: [\x27a\x27]\n") (S "[\x27a\x27]")
      (S "tags: [\x27a\x27]\n") (by decide) (by decide)).2 (S "tags: ") (S "\n")
      (by decide) (by decide) (by decide) (by decide) (by decide),
   (claim_C2_tags_guard trCrossBad (S "title: \x27AI\x27\ntags: [\x27AI\x27, \x27X\x27]\n")
      (S "[\x27AI\x27, \x27X\x27]") (S "title: \x27KI\x27\ntags: [\x27KI\x27, \x27X\x27]\n")
      (by decide) (by decide)).1 (Or.inl (by decide))⟩

/-- C3 counterexample: in a block carrying both a title and a tags field,
a failing metadata call for the title aborts the whole transcode with the
exception — the tags field, whose translation would have succeeded, is
never attempted or spliced (no per-field exception scope exists). -/
theorem claim_C3_counterexample :
    translate_frontmatterE trMetaDown (S "\ntitle: \x27AI\x27\ntags: [\x27a\x27]\n") (S "EN")
      = .error (S "model down") ∧
    searchKeyBracket (S "tags:") (S "\ntitle: \x27AI\x27\ntags: [\x27a\x27]\n")
      = some (S "[\x27a\x27]") ∧
    trMetaDown.tags (S "[\x27a\x27]") (S "EN") = .ok (S "[\x27a\x27]") :=
  ⟨rfl, by decide, rfl⟩

/-- C3 (amended): a model-call failure while translating one frontmatter
field propagates out of `_translate_frontmatter` and aborts the remaining
field steps: a failing title call makes the whole transcode raise, as does
a failing description call when no title matched. -/
theorem claim_C3_field_failure :
    (∀ (tr : TranslatorE) (raw lang t e : List Char),
      searchKeyQuoted (S "title:") raw = some t →
      tr.metadata t lang = .error e →
      translate_frontmatterE tr raw lang = .error e) ∧
    (∀ (tr : TranslatorE) (raw lang d e : List Char),
      searchKeyQuoted (S "title:") raw = none →
      searchKeyQuoted (S "description:") raw = some d →
      tr.metadata d lang = .error e →
      translate_frontmatterE tr raw lang = .error e) := by
  constructor
  · intro tr raw lang t e hT hm
    unfold translate_frontmatterE
    rw [hT]
    dsimp only
    rw [hm]
  · intro tr raw lang d e hT hD hm
    unfold translate_frontmatterE
    rw [hT]
    dsimp only
    unfold desc_stepE
    rw [hD]
    dsimp only
    rw [hm]

/-- Witness for C3 at a concrete failing title call. -/
theorem claim_C3_witness :
    translate_frontmatterE trMetaDown (S "title: \x27Z\x27") (S "EN")
      = .error (S "model down") :=
  claim_C3_field_failure.1 trMetaDown (S "title: \x27Z\x27") (S "EN") (S "Z")
    (S "model down") (by decide) rfl

/-- C4 counterexample: a body-translation failure for the first target
language (EN) makes `process_file` raise after writing nothing — in
particular the JP translation, which would have succeeded, is never
attempted for that file, contrary to the claimed per-language isolation. -/
theorem claim_C4_counterexample :
    process_file trEnBodyDown (S "/blog/ko/p.mdx") (S "hello")
      = ([], some (S "backend down")) ∧
    trEnBodyDown.body (pyStrip (S "hello")) (S "JP") = .ok (S "hello") :=
  ⟨by decide, rfl⟩

/-- C4 (amended): a failure while translating for EN propagates out of
`process_file` (no per-language exception scope exists), so no output is
written for either language of that file; the caller's isolation is per
file — it catches the failure and continues with the remaining files. -/
theorem claim_C4_language_isolation (tr : TranslatorE) (path content e : List Char)
    (rest : List (List Char × List Char))
    (hfm : (parseDoc content).1 = [])
    (hbody : tr.body (pyStrip (parseDoc content).2.1) (S "EN") = .error e) :
    process_file tr path content = ([], some e) ∧
    main_loop tr ((path, content) :: rest) = main_loop tr rest := by
  have hpf : process_file tr path content = ([], some e) := by
    unfold process_file
    dsimp only
    rw [hfm]
    simp [run_langs, hbody]
  refine ⟨hpf, ?_⟩
  show (process_file tr path content).1 ++ main_loop tr rest = main_loop tr rest
  rw [hpf]
  simp

/-- Witness for C4 at a concrete EN-failing file. -/
theorem claim_C4_witness :
    process_file trEnBodyDown (S "/blog/ko/q.mdx") (S "hi there")
      = ([], some (S "backend down")) ∧
    main_loop trEnBodyDown [(S "/blog/ko/q.mdx", S "hi there")]
      = main_loop trEnBodyDown [] :=
  claim_C4_language_isolation trEnBodyDown (S "/blog/ko/q.mdx") (S "hi there")
    (S "backend down") [] (by decide) rfl

/-- C7: output-path derivation.  (1) The spec's example: the `/ko/` segment
is substituted by the lower-cased target code.  (2) In general, a path
whose unique `/ko/` occurrence splits it as `a ++ "/ko/" ++ b` has exactly
that occurrence substituted.  (3) A path with no `/ko/` occurrence nests
under a sibling directory named by the lower-cased target code. -/
theorem claim_C7_target_path :
    (target_path (S "/home/u/src/content/blog/ko/post.mdx") (S "EN")
      = S "/home/u/src/content/blog/en/post.mdx") ∧
    (∀ (a b lang : List Char),
      (∀ i, i < a.length → koSeg.isPrefixOf ((a ++ koSeg ++ b).drop i) = false) →
      hasSub koSeg b = false →
      target_path (a ++ koSeg ++ b) lang
        = a ++ ('/' :: (pyLower lang ++ ['/'])) ++ b) ∧
    (∀ (path lang : List Char),
      hasSub koSeg path = false →
      hasSub ['/'] path = true →
      target_path path lang
        = path_parent path ++ '/' :: (pyLower lang ++ '/' :: path_name path)) := by
  refine ⟨by decide, ?_, ?_⟩
  · intro a b lang hocc hB
    have hk : koSeg ≠ [] := by decide
    unfold target_path
    rw [if_pos (hasSub_mid koSeg a b)]
    exact listReplace_first koSeg ('/' :: (pyLower lang ++ ['/'])) a b hk hocc hB
  · intro path lang h _hslash
    unfold target_path
    rw [if_neg (by rw [h]; simp)]

/-- Witness for C7 at concrete paths for both derivation branches. -/
theorem claim_C7_witness :
    target_path (S "/data" ++ koSeg ++ S "p.mdx") (S "JP")
      = S "/data" ++ ('/' :: (pyLower (S "JP") ++ ['/'])) ++ S "p.mdx" ∧
    target_path (S "/archive/x.mdx") (S "EN")
      = path_parent (S "/archive/x.mdx")
        ++ '/' :: (pyLower (S "EN") ++ '/' :: path_name (S "/archive/x.mdx")) :=
  ⟨claim_C7_target_path.2.1 (S "/data") (S "p.mdx") (S "JP") (by decide) (by decide),
   claim_C7_target_path.2.2 (S "/archive/x.mdx") (S "EN") (by decide) (by decide)⟩

/-- C8 counterexample: with a live connection whose insert and rollback
both fail (a broken connection — the claim's "connectivity failure"), the
uncaught `self.conn.rollback()` of the insert-failure handler raises out
of `log_inference` and escapes through `_call_llm`'s logging tail into the
pipeline, so the file's output write is never reached. -/
theorem claim_C8_counterexample :
    log_inference ⟨true, false, false⟩ true = .error (S "rollback failed") ∧
    call_llm_log ⟨true, false, false⟩ true (S "translated")
      = .error (S "rollback failed") :=
  ⟨rfl, rfl⟩

/-- C8 (amended): a failed connection attempt never raises — a call with
no connection and the database down returns silently, and the next call
lazily retries the connection, recording again once connect and insert
succeed; an insert failure whose rollback succeeds is also swallowed, and
in every such non-raising case `_call_llm`'s logging tail returns the
backend text unchanged, so the output write proceeds.  Only an insert
failure whose rollback also fails escapes (the counterexample). -/
theorem claim_C8_sink_isolation (env : SinkEnv) (conn : Bool) (t : List Char) :
    ((env.insertOk || env.rollbackOk) = true →
      (∃ r, log_inference env conn = .ok r) ∧
      (∃ conn2, call_llm_log env conn t = .ok (t, conn2))) ∧
    (∀ io ro : Bool, log_inference ⟨false, io, ro⟩ false = .ok (false, false)) ∧
    (∀ ro : Bool, log_inference ⟨true, true, ro⟩ false = .ok (true, true)) := by
  obtain ⟨co, io, ro⟩ := env
  refine ⟨?_, ?_, ?_⟩
  · intro h
    cases co <;> cases io <;> cases ro <;> cases conn <;>
      first
      | exact ⟨⟨_, rfl⟩, ⟨_, rfl⟩⟩
      | simp at h
  · intro i r
    cases i <;> cases r <;> rfl
  · intro r
    cases r <;> rfl

/-- Witness for C8 at a concrete environment whose insert succeeds. -/
theorem claim_C8_witness :
    (∃ r, log_inference ⟨true, true, false⟩ true = .ok r) ∧
    (∃ conn2, call_llm_log ⟨true, true, false⟩ true (S "ok text")
      = .ok (S "ok text", conn2)) :=
  (claim_C8_sink_isolation ⟨true, true, false⟩ true (S "ok text")).1 (by decide)

/-- C9: the model identifier and system prompt chosen by `_call_llm` are a
pure function of the pair (target language, role): the user text never
influences the selection, the identifier and base prompt are the fixed
per-language entries, the tags role appends the strict output-format
instruction, the metadata role appends the brevity instruction, and the
two configured languages select their fixed models. -/
theorem claim_C9_selection_pure (t1 t2 lang : List Char) (is_metadata is_tags : Bool) :
    call_llm_select t1 lang is_metadata is_tags
      = call_llm_select t2 lang is_metadata is_tags ∧
    (call_llm_select t1 lang is_metadata is_tags).1
      = dictGet MODELS lang (S "gemma2:9b") ∧
    (call_llm_select t1 lang is_metadata is_tags).2
      = dictGet SYSTEM_PROMPTS lang []
        ++ (if is_tags then tagsInstruction
            else if is_metadata then metadataInstruction else []) ∧
    (call_llm_select t1 (S "EN") is_metadata is_tags).1 = S "gemma2:9b" ∧
    (call_llm_select t1 (S "JP") is_metadata is_tags).1 = S "qwen2.5:7b" := by
  refine ⟨rfl, rfl, ?_, ?_, ?_⟩
  · cases is_tags <;> cases is_metadata <;> simp [call_llm_select]
  · dsimp only [call_llm_select]
    decide
  · dsimp only [call_llm_select]
    decide

/-- C10: the throughput computation of `_call_llm` never divides by zero:
an absent, zero, or negative `eval_duration` yields exactly 0; a positive
duration yields `eval_count / (eval_duration / 1e9)` with a provably
nonzero divisor, equal to `eval_count * 1e9 / eval_duration`. -/
theorem claim_C10_tps_guard (eval_duration eval_count : Option Int) :
    (tps_of none eval_count = 0) ∧
    (∀ d : Int, eval_duration = some d → d ≤ 0 →
      tps_of eval_duration eval_count = 0) ∧
    (∀ d : Int, eval_duration = some d → 0 < d →
      ((d : ℚ) / 1000000000 ≠ 0 ∧
        tps_of eval_duration eval_count
          = ((eval_count.getD 0 : ℚ) * 1000000000) / (d : ℚ))) := by
  refine ⟨?_, ?_, ?_⟩
  · simp [tps_of]
  · intro d hd hle
    subst hd
    simp only [tps_of, Option.getD_some]
    rw [if_neg (by omega)]
  · intro d hd hpos
    subst hd
    have hq : (0 : ℚ) < (d : ℚ) := by exact_mod_cast hpos
    refine ⟨div_ne_zero (ne_of_gt hq) (by norm_num), ?_⟩
    simp only [tps_of, Option.getD_some]
    rw [if_pos hpos, div_div_eq_mul_div]

/-- Witness for C10 at a concrete positive duration. -/
theorem claim_C10_witness :
    0 < (2 : ℤ) ∧
    (((2 : ℤ) : ℚ) / 1000000000 ≠ 0 ∧
      tps_of (some 2) (some 5)
        = (((some (5 : ℤ)).getD 0 : ℚ) * 1000000000) / ((2 : ℤ) : ℚ)) :=
  ⟨by norm_num, (claim_C10_tps_guard (some 2) (some 5)).2.2 2 rfl (by norm_num)⟩

end LlmObs
